import Mathlib

/-!
Verification of the MediaDL YouTube downloader service
(`youtube-downloader.service.ts`): a shallow embedding of its format
selector, filename sanitizer, height parsing and metadata-fetch error
handling, with theorems settling the specification's claims.

The repository contains two revisions of the service.  The primary
revision (the one the specification's quality-map text is written from)
filters by container for both media kinds, resolves a quality label
through a fixed label→height map, and reduces to the leftmost maximum
height.  The older revision differs in its audio filter (no container
check), its quality matching (substring match on the label) and its
sanitizer (no whitespace collapsing, default name "video"); where a
claim speaks about both variants the older one is embedded with a
`Legacy` suffix.
-/

namespace MediaDL

/-- One format descriptor of `YoutubeMetadata.formats`.  `contentLength`,
`url` and `height` are optional fields in the source interface. -/
structure Format where
  quality : String
  container : String
  hasVideo : Bool
  hasAudio : Bool
  resolution : String
  bitrate : String
  contentLength : Option Nat := none
  url : Option String := none
  height : Option String := none
deriving Repr, DecidableEq

/-- The `mediaType: 'video' | 'audio'` union type. -/
inductive MediaType where
  | video
  | audio
deriving Repr, DecidableEq

/-- Value of a run of decimal digits, accumulator style. -/
def digitsVal : List Char → Nat → Nat
  | [], acc => acc
  | c :: rest, acc =>
    if c.isDigit then digitsVal rest (10 * acc + (c.toNat - 48)) else acc

/-- The leading decimal-digit run of a character list, `none` when the
list does not start with a digit. -/
def leadingNat (cs : List Char) : Option Nat :=
  match cs with
  | [] => none
  | c :: _ => if c.isDigit then some (digitsVal cs 0) else none

/-- JavaScript `parseInt(s) || 0` on an optional string: skip leading
whitespace, read an optional sign and the leading decimal integer;
a missing value or a string with no leading integer yields 0. -/
def parseIntOr0 (s : Option String) : Int :=
  match s with
  | none => 0
  | some str =>
    match str.data.dropWhile Char.isWhitespace with
    | '-' :: rest =>
      match leadingNat rest with
      | some n => -(n : Int)
      | none => 0
    | '+' :: rest =>
      match leadingNat rest with
      | some n => (n : Int)
      | none => 0
    | cs =>
      match leadingNat cs with
      | some n => (n : Int)
      | none => 0

/-- The parsed height of a descriptor: `parseInt(f.height) || 0`. -/
def heightOf (f : Format) : Int := parseIntOr0 f.height

/-- First-stage filter of `selectBestFormat` (primary revision):
audio keeps `hasAudio && !hasVideo && container === 'mp4'`,
video keeps `hasVideo && hasAudio && container === 'mp4'`. -/
def filterFormats (formats : List Format) (mediaType : MediaType) : List Format :=
  formats.filter fun format =>
    match mediaType with
    | .audio => format.hasAudio && !format.hasVideo && format.container == "mp4"
    | .video => format.hasVideo && format.hasAudio && format.container == "mp4"

/-- First-stage filter of the older revision of `selectBestFormat`:
its audio branch has no container check. -/
def filterFormatsLegacy (formats : List Format) (mediaType : MediaType) : List Format :=
  formats.filter fun format =>
    match mediaType with
    | .audio => format.hasAudio && !format.hasVideo
    | .video => format.hasVideo && format.hasAudio && format.container == "mp4"

/-- The `qualityMap` object literal: the eight known quality labels and
their pixel heights. -/
def qualityMap (q : String) : Option Nat :=
  if q = "4320p" then some 4320
  else if q = "2160p" then some 2160
  else if q = "1440p" then some 1440
  else if q = "1080p" then some 1080
  else if q = "720p" then some 720
  else if q = "480p" then some 480
  else if q = "360p" then some 360
  else if q = "240p" then some 240
  else none

/-- `qualityMap[quality] || 1080`: target height of a quality label,
1080 for an unrecognized one. -/
def targetHeightOf (q : String) : Nat := (qualityMap q).getD 1080

/-- Quality-resolution stage: under `if (quality)` (so only for a
present, non-empty label) find the first filtered descriptor whose
parsed height is at most the target height. -/
def qualityFind (filteredFormats : List Format) (quality : Option String) : Option Format :=
  match quality with
  | none => none
  | some q =>
    if q = "" then none
    else filteredFormats.find? fun f => parseIntOr0 f.height ≤ (targetHeightOf q : Int)

/-- One step of the default-stage `reduce`:
`currentHeight > bestHeight ? current : best`. -/
def betterOf (best current : Format) : Format :=
  if heightOf current > heightOf best then current else best

/-- The default-stage `reduce` over a non-empty filtered list, seeded
with its head. -/
def reduceBest (b : Format) (rest : List Format) : Format :=
  rest.foldl betterOf b

/-- `selectBestFormat(formats, mediaType, quality?)` of the primary
revision: filter, return `null` on an empty filtered list, try the
quality-resolution stage, otherwise reduce to the best height. -/
def selectBestFormat (formats : List Format) (mediaType : MediaType)
    (quality : Option String) : Option Format :=
  match filterFormats formats mediaType with
  | [] => none
  | b :: rest =>
    match qualityFind (b :: rest) quality with
    | some f => some f
    | none => some (reduceBest b rest)

/-- A backend API response: `{ success, data }`, with the payload
possibly absent.  Polymorphic in the payload so that pass-through is
visible in the type. -/
structure ApiResponse (α : Type) where
  success : Bool
  data : Option α
deriving Repr, DecidableEq

/-- `getVideoMetadata`: the external call either throws (`.error` with
the thrown message, possibly empty) or resolves to a possibly-missing
response.  A missing or unsuccessful response and a response without
data each raise a fixed French error message; the catch block re-wraps
any error as `error?.message || 'Erreur lors de la récupération des
métadonnées'`. -/
def getVideoMetadata (α : Type) (call : Except String (Option (ApiResponse α))) :
    Except String α :=
  let inner : Except String α :=
    match call with
    | .error e => .error e
    | .ok response =>
      match response with
      | none => .error "Erreur lors de la récupération des métadonnées"
      | some r =>
        if !r.success then
          .error "Erreur lors de la récupération des métadonnées"
        else
          match r.data with
          | none => .error "Aucune donnée trouvée pour cette vidéo"
          | some d => .ok d
  match inner with
  | .ok d => .ok d
  | .error m =>
    .error (if m = "" then "Erreur lors de la récupération des métadonnées" else m)

/-- The characters replaced by `_` in `sanitizeFilename`. -/
def invalidChars : List Char := ['<', '>', ':', '"', '/', '\\', '|', '?', '*']

/-- `replace(/[<>:"\/\\|?*]/g, '_')` over a character list. -/
def replaceInvalid (cs : List Char) : List Char :=
  cs.map fun c => if c ∈ invalidChars then '_' else c

/-- Whether a character list starts with a whitespace character. -/
def startsWithWs : List Char → Bool
  | [] => false
  | c :: _ => c.isWhitespace

/-- `replace(/\s+/g, ' ')`: each maximal whitespace run becomes a single
space (a whitespace character is dropped while the run continues and
becomes the single space at the run's end). -/
def collapseWs : List Char → List Char
  | [] => []
  | c :: rest =>
    if c.isWhitespace then
      if startsWithWs rest then collapseWs rest else ' ' :: collapseWs rest
    else c :: collapseWs rest

/-- JavaScript `trim()`: strip whitespace from both ends. -/
def trimChars (cs : List Char) : List Char :=
  ((cs.dropWhile Char.isWhitespace).reverse.dropWhile Char.isWhitespace).reverse

/-- `sanitizeFilename` of the primary revision: replace invalid
characters, collapse whitespace, truncate to 80 characters, trim, and
fall back to `'youtube-video'` when the result is empty. -/
def sanitizeFilename (cs : List Char) : List Char :=
  let r := trimChars ((collapseWs (replaceInvalid cs)).take 80)
  if r = [] then "youtube-video".data else r

/-- `sanitizeFilename` of the older revision: no whitespace collapsing
and default name `'video'`. -/
def sanitizeFilenameLegacy (cs : List Char) : List Char :=
  let r := trimChars ((replaceInvalid cs).take 80)
  if r = [] then "video".data else r

/-- The eight quality labels recognized by `qualityMap`. -/
def knownLabels : List String :=
  ["4320p", "2160p", "1440p", "1080p", "720p", "480p", "360p", "240p"]

/-! ### Helper lemmas -/

theorem reduceBest_cons (b c : Format) (rest : List Format) :
    reduceBest b (c :: rest) = reduceBest (betterOf b c) rest := rfl

theorem heightOf_le_betterOf_left (b c : Format) :
    heightOf b ≤ heightOf (betterOf b c) := by
  unfold betterOf
  split
  · omega
  · exact le_refl _

theorem heightOf_le_betterOf_right (b c : Format) :
    heightOf c ≤ heightOf (betterOf b c) := by
  unfold betterOf
  split
  · exact le_refl _
  · omega

theorem betterOf_cases (b c : Format) : betterOf b c = b ∨ betterOf b c = c := by
  unfold betterOf
  split
  · exact Or.inr rfl
  · exact Or.inl rfl

theorem reduceBest_mem : ∀ (rest : List Format) (b : Format),
    reduceBest b rest ∈ b :: rest := by
  intro rest
  induction rest with
  | nil => intro b; simp [reduceBest]
  | cons c rest ih =>
    intro b
    rw [reduceBest_cons]
    rcases List.mem_cons.mp (ih (betterOf b c)) with h | h
    · rcases betterOf_cases b c with hbc | hbc <;> rw [hbc] at h ⊢ <;> simp [h]
    · simp only [List.mem_cons]
      right; right; exact h

theorem reduceBest_max : ∀ (rest : List Format) (b g : Format),
    g ∈ b :: rest → heightOf g ≤ heightOf (reduceBest b rest) := by
  intro rest
  induction rest with
  | nil =>
    intro b g hg
    simp at hg
    subst hg
    simp [reduceBest]
  | cons c rest ih =>
    intro b g hg
    rw [reduceBest_cons]
    rcases List.mem_cons.mp hg with h | h
    · subst h
      exact le_trans (heightOf_le_betterOf_left g c)
        (ih (betterOf g c) (betterOf g c) (List.mem_cons_self _ _))
    · rcases List.mem_cons.mp h with h2 | h2
      · subst h2
        exact le_trans (heightOf_le_betterOf_right b g)
          (ih (betterOf b g) (betterOf b g) (List.mem_cons_self _ _))
      · exact ih (betterOf b c) g (List.mem_cons_of_mem _ h2)

theorem reduceBest_split : ∀ (rest : List Format) (b : Format),
    ∃ l₁ l₂, b :: rest = l₁ ++ reduceBest b rest :: l₂ ∧
      (∀ g ∈ l₁, heightOf g < heightOf (reduceBest b rest)) ∧
      (∀ g ∈ l₂, heightOf g ≤ heightOf (reduceBest b rest)) := by
  intro rest
  induction rest with
  | nil =>
    intro b
    exact ⟨[], [], rfl, by simp, by simp⟩
  | cons c rest ih =>
    intro b
    rw [reduceBest_cons]
    by_cases hc : heightOf c > heightOf b
    · have hbc : betterOf b c = c := by unfold betterOf; rw [if_pos hc]
      rw [hbc]
      obtain ⟨m₁, m₂, heq, hlt, hle⟩ := ih c
      refine ⟨b :: m₁, m₂, ?_, ?_, hle⟩
      · rw [List.cons_append, ← heq]
      · intro g hg
        rcases List.mem_cons.mp hg with h | h
        · subst h
          exact lt_of_lt_of_le hc (reduceBest_max rest c c (List.mem_cons_self _ _))
        · exact hlt g h
    · have hbc : betterOf b c = b := by unfold betterOf; rw [if_neg hc]
      push_neg at hc
      rw [hbc]
      obtain ⟨m₁, m₂, heq, hlt, hle⟩ := ih b
      cases m₁ with
      | nil =>
        simp only [List.nil_append] at heq
        have hb : b = reduceBest b rest := ((List.cons.injEq _ _ _ _).mp heq).1
        have hrest : rest = m₂ := ((List.cons.injEq _ _ _ _).mp heq).2
        refine ⟨[], c :: rest, ?_, by simp, ?_⟩
        · simp [← hb]
        · intro g hg
          rcases List.mem_cons.mp hg with h | h
          · subst h
            exact le_trans hc (le_of_eq (congrArg heightOf hb))
          · rw [hrest] at h
            exact hle g h
      | cons x m₁ =>
        simp only [List.cons_append] at heq
        have hx : x = b := (((List.cons.injEq _ _ _ _).mp heq).1).symm
        subst hx
        have hrest : rest = m₁ ++ reduceBest x rest :: m₂ :=
          ((List.cons.injEq _ _ _ _).mp heq).2
        have hblt : heightOf x < heightOf (reduceBest x rest) :=
          hlt x (List.mem_cons_self _ _)
        refine ⟨x :: c :: m₁, m₂, ?_, ?_, hle⟩
        · rw [List.cons_append, List.cons_append, ← hrest]
        · intro g hg
          rcases List.mem_cons.mp hg with h | h
          · subst h; exact hblt
          · rcases List.mem_cons.mp h with h2 | h2
            · subst h2; exact lt_of_le_of_lt hc hblt
            · exact hlt g (List.mem_cons_of_mem _ h2)

theorem find_first {α : Type} (p : α → Bool) :
    ∀ (l : List α) (i : Nat) (hi : i < l.length),
      p (l.get ⟨i, hi⟩) = true →
      (∀ j (hj : j < l.length), j < i → p (l.get ⟨j, hj⟩) = false) →
      l.find? p = some (l.get ⟨i, hi⟩) := by
  intro l
  induction l with
  | nil => intro i hi; exact absurd hi (by simp)
  | cons x xs ih =>
    intro i hi hp hfirst
    match i with
    | 0 =>
      exact List.find?_cons_of_pos _ hp
    | i + 1 =>
      have hx : p x = false := hfirst 0 (by simp) (Nat.succ_pos i)
      rw [List.find?_cons_of_neg _ (by simp [hx])]
      exact ih i (Nat.lt_of_succ_lt_succ hi) hp
        (fun j hj hji => hfirst (j + 1) (Nat.succ_lt_succ hj) (Nat.succ_lt_succ hji))

theorem qualityFind_mem (l : List Format) (quality : Option String) (f : Format)
    (h : qualityFind l quality = some f) : f ∈ l := by
  cases quality with
  | none => simp [qualityFind] at h
  | some q =>
    by_cases hq : q = ""
    · simp [qualityFind, hq] at h
    · simp only [qualityFind, if_neg hq] at h
      exact List.mem_of_find?_eq_some h

theorem mem_filterFormats (formats : List Format) (mt : MediaType) (f : Format)
    (h : f ∈ filterFormats formats mt) : f ∈ formats := by
  unfold filterFormats at h
  exact (List.mem_filter.mp h).1

theorem selectBestFormat_cons (formats : List Format) (mt : MediaType)
    (quality : Option String) (b : Format) (rest : List Format)
    (hfil : filterFormats formats mt = b :: rest) :
    selectBestFormat formats mt quality =
      match qualityFind (b :: rest) quality with
      | some f => some f
      | none => some (reduceBest b rest) := by
  unfold selectBestFormat
  rw [hfil]

theorem mem_collapseWs : ∀ (cs : List Char) (c : Char),
    c ∈ collapseWs cs → c = ' ' ∨ c ∈ cs := by
  intro cs
  induction cs with
  | nil =>
    intro c hc
    simp [collapseWs] at hc
  | cons x rest ih =>
    intro c hc
    rw [collapseWs] at hc
    by_cases hws : x.isWhitespace
    · rw [if_pos hws] at hc
      by_cases hsw : startsWithWs rest
      · rw [if_pos hsw] at hc
        rcases ih c hc with h2 | h2
        · exact Or.inl h2
        · exact Or.inr (List.mem_cons_of_mem _ h2)
      · rw [if_neg hsw] at hc
        rcases List.mem_cons.mp hc with h | h
        · exact Or.inl h
        · rcases ih c h with h2 | h2
          · exact Or.inl h2
          · exact Or.inr (List.mem_cons_of_mem _ h2)
    · rw [if_neg hws] at hc
      rcases List.mem_cons.mp hc with h | h
      · subst h; exact Or.inr (List.mem_cons_self _ _)
      · rcases ih c h with h2 | h2
        · exact Or.inl h2
        · exact Or.inr (List.mem_cons_of_mem _ h2)

theorem length_trimChars_le (cs : List Char) : (trimChars cs).length ≤ cs.length := by
  unfold trimChars
  rw [List.length_reverse]
  calc ((cs.dropWhile Char.isWhitespace).reverse.dropWhile Char.isWhitespace).length
      ≤ (cs.dropWhile Char.isWhitespace).reverse.length :=
        (List.dropWhile_sublist _).length_le
    _ = (cs.dropWhile Char.isWhitespace).length := List.length_reverse _
    _ ≤ cs.length := (List.dropWhile_sublist _).length_le

theorem mem_trimChars (cs : List Char) (c : Char) (h : c ∈ trimChars cs) : c ∈ cs := by
  unfold trimChars at h
  rw [List.mem_reverse] at h
  have h2 := (List.dropWhile_sublist _).subset h
  rw [List.mem_reverse] at h2
  exact (List.dropWhile_sublist _).subset h2

theorem replaceInvalid_no_invalid (cs : List Char) (c : Char)
    (h : c ∈ replaceInvalid cs) : c ∉ invalidChars := by
  unfold replaceInvalid at h
  rcases List.mem_map.mp h with ⟨c0, _, hc⟩
  by_cases h0 : c0 ∈ invalidChars
  · rw [if_pos h0] at hc
    subst hc
    decide
  · rw [if_neg h0] at hc
    subst hc
    exact h0

/-! ### Concrete descriptors used by the witnesses -/

/-- A 1080p mp4 descriptor with both tracks. -/
def fmt1080 : Format :=
  { quality := "1080p", container := "mp4", hasVideo := true, hasAudio := true,
    resolution := "1920x1080", bitrate := "b", height := some "1080" }

/-- A 720p mp4 descriptor with both tracks. -/
def fmt720 : Format :=
  { quality := "720p", container := "mp4", hasVideo := true, hasAudio := true,
    resolution := "1280x720", bitrate := "b", height := some "720" }

/-- An audio-only mp4 descriptor. -/
def fmtAudio : Format :=
  { quality := "AUDIO_QUALITY_MEDIUM", container := "mp4", hasVideo := false,
    hasAudio := true, resolution := "", bitrate := "b", height := none }

/-- A 1080p descriptor in a webm container, rejected by the video filter. -/
def fmtWebm : Format :=
  { quality := "1080p", container := "webm", hasVideo := true, hasAudio := true,
    resolution := "1920x1080", bitrate := "b", height := some "1080" }

/-- An mp4 descriptor with a non-numeric height, parsing to 0. -/
def fmtZero : Format :=
  { quality := "medium", container := "mp4", hasVideo := true, hasAudio := true,
    resolution := "", bitrate := "b", height := some "abc" }

/-! ### The claims -/

/-- Claim C1: in the quality-resolution stage of `selectBestFormat`, for every
non-empty filtered format list and every supplied quality label, the target
height is obtained from the fixed mapping 4320p→4320, 2160p→2160, 1440p→1440,
1080p→1080, 720p→720, 480p→480, 360p→360, 240p→240 (any unrecognized label
maps to 1080), and the returned descriptor is the first one in the filtered
list's existing order whose parsed height is at most that target height. -/
theorem C1_quality_stage_fixed_map_first_match :
    (targetHeightOf "4320p" = 4320 ∧ targetHeightOf "2160p" = 2160 ∧
     targetHeightOf "1440p" = 1440 ∧ targetHeightOf "1080p" = 1080 ∧
     targetHeightOf "720p" = 720 ∧ targetHeightOf "480p" = 480 ∧
     targetHeightOf "360p" = 360 ∧ targetHeightOf "240p" = 240 ∧
     (∀ q : String, q ∉ knownLabels → targetHeightOf q = 1080)) ∧
    (∀ (formats : List Format) (mt : MediaType) (q : String) (b : Format)
       (rest : List Format),
       filterFormats formats mt = b :: rest → q ≠ "" →
       ∀ (i : Nat) (hi : i < (b :: rest).length),
         parseIntOr0 ((b :: rest).get ⟨i, hi⟩).height ≤ (targetHeightOf q : Int) →
         (∀ (j : Nat) (hj : j < (b :: rest).length), j < i →
           ¬ parseIntOr0 ((b :: rest).get ⟨j, hj⟩).height ≤ (targetHeightOf q : Int)) →
         selectBestFormat formats mt (some q) = some ((b :: rest).get ⟨i, hi⟩)) := by
  constructor
  · refine ⟨by decide, by decide, by decide, by decide, by decide, by decide,
      by decide, by decide, ?_⟩
    intro q hq
    simp only [knownLabels, List.mem_cons, List.mem_singleton, not_or] at hq
    obtain ⟨h1, h2, h3, h4, h5, h6, h7, h8⟩ := hq
    simp [targetHeightOf, qualityMap, h1, h2, h3, h4, h5, h6, h7, h8]
  · intro formats mt q b rest hfil hq i hi hsat hfirst
    have hfind : (b :: rest).find?
        (fun f => parseIntOr0 f.height ≤ (targetHeightOf q : Int)) =
        some ((b :: rest).get ⟨i, hi⟩) := by
      apply find_first
      · simpa using hsat
      · intro j hj hji
        simpa using hfirst j hj hji
    unfold selectBestFormat
    rw [hfil]
    simp only [qualityFind, if_neg hq, hfind]

/-- Claim C2: in the default stage of `selectBestFormat` (no quality supplied),
for every non-empty filtered format list the returned descriptor is one with
the numerically greatest parsed height, and when several descriptors share
that maximal height the leftmost one is returned: the result splits the
filtered list so that everything before it has strictly smaller height and
nothing anywhere exceeds it. -/
theorem C2_default_stage_leftmost_max_height :
    ∀ (formats : List Format) (mt : MediaType) (b : Format) (rest : List Format),
      filterFormats formats mt = b :: rest →
      ∃ r l₁ l₂, selectBestFormat formats mt none = some r ∧
        b :: rest = l₁ ++ r :: l₂ ∧
        (∀ g ∈ l₁, heightOf g < heightOf r) ∧
        (∀ g ∈ b :: rest, heightOf g ≤ heightOf r) := by
  intro formats mt b rest hfil
  obtain ⟨l₁, l₂, heq, hlt, _⟩ := reduceBest_split rest b
  refine ⟨reduceBest b rest, l₁, l₂, ?_, heq, hlt,
    fun g hg => reduceBest_max rest b g hg⟩
  rw [selectBestFormat_cons formats mt none b rest hfil]
  rfl

/-- Claim C3: whenever the filtered subset is non-empty, `selectBestFormat`
returns a descriptor, never the "no match" result; and when the
quality-resolution stage finds nothing, it falls through to the default
(maximum-height) stage, i.e. behaves exactly as with no quality supplied. -/
theorem C3_nonempty_filtered_always_some :
    ∀ (formats : List Format) (mt : MediaType) (quality : Option String)
      (b : Format) (rest : List Format),
      filterFormats formats mt = b :: rest →
      (∃ f, selectBestFormat formats mt quality = some f) ∧
      (qualityFind (b :: rest) quality = none →
        selectBestFormat formats mt quality = selectBestFormat formats mt none) := by
  intro formats mt quality b rest hfil
  constructor
  · rw [selectBestFormat_cons formats mt quality b rest hfil]
    cases hqf : qualityFind (b :: rest) quality with
    | none => exact ⟨reduceBest b rest, by simp [hqf]⟩
    | some f => exact ⟨f, by simp [hqf]⟩
  · intro hqf
    rw [selectBestFormat_cons formats mt quality b rest hfil,
      selectBestFormat_cons formats mt none b rest hfil, hqf]
    rfl

/-- Claim C4: if filtering for the given media kind yields an empty set,
`selectBestFormat` returns the "no match" result (`none`), regardless of the
quality argument. -/
theorem C4_empty_filtered_no_match :
    ∀ (formats : List Format) (mt : MediaType) (quality : Option String),
      filterFormats formats mt = [] →
      selectBestFormat formats mt quality = none := by
  intro formats mt quality h
  unfold selectBestFormat
  rw [h]

/-- Claim C5: for media kind audio, every format kept by the first-stage
filter has `hasAudio = true` and `hasVideo = false`; in the stricter (primary)
variant it also has `container = "mp4"`. -/
theorem C5_audio_filter_props :
    ∀ (formats : List Format) (f : Format),
      (f ∈ filterFormatsLegacy formats MediaType.audio →
        f.hasAudio = true ∧ f.hasVideo = false) ∧
      (f ∈ filterFormats formats MediaType.audio →
        f.hasAudio = true ∧ f.hasVideo = false ∧ f.container = "mp4") := by
  intro formats f
  constructor
  · intro h
    have h2 := (List.mem_filter.mp h).2
    simp only [Bool.and_eq_true, Bool.not_eq_true'] at h2
    exact ⟨h2.1, h2.2⟩
  · intro h
    have h2 := (List.mem_filter.mp h).2
    simp only [Bool.and_eq_true, Bool.not_eq_true', beq_iff_eq] at h2
    exact ⟨h2.1.1, h2.1.2, h2.2⟩

/-- Claim C6: for media kind video, every format kept by the first-stage
filter has `hasVideo = true`, `hasAudio = true` and `container = "mp4"`
(identically in both observed revisions of the filter). -/
theorem C6_video_filter_props :
    ∀ (formats : List Format) (f : Format),
      (f ∈ filterFormats formats MediaType.video →
        f.hasVideo = true ∧ f.hasAudio = true ∧ f.container = "mp4") ∧
      (f ∈ filterFormatsLegacy formats MediaType.video →
        f.hasVideo = true ∧ f.hasAudio = true ∧ f.container = "mp4") := by
  intro formats f
  constructor
  · intro h
    have h2 := (List.mem_filter.mp h).2
    simp only [Bool.and_eq_true, beq_iff_eq] at h2
    exact ⟨h2.1.1, h2.1.2, h2.2⟩
  · intro h
    have h2 := (List.mem_filter.mp h).2
    simp only [Bool.and_eq_true, beq_iff_eq] at h2
    exact ⟨h2.1.1, h2.1.2, h2.2⟩

/-- Claim C7: height parsing extracts the leading integer of the height
string (for instance "1080" ↦ 1080 and "720p60" ↦ 720), a missing or
non-numeric value ("" or "abc") parses to 0, and consequently a zero-parsing
descriptor never wins the default-stage max-height reduction against a
positive-height descriptor: whenever some filtered candidate has positive
parsed height, the selected descriptor has positive parsed height. -/
theorem C7_height_parsing_zero_never_wins :
    (parseIntOr0 none = 0 ∧ parseIntOr0 (some "") = 0 ∧
     parseIntOr0 (some "abc") = 0 ∧ parseIntOr0 (some "1080") = 1080 ∧
     parseIntOr0 (some "720p60") = 720) ∧
    (∀ (formats : List Format) (mt : MediaType) (r : Format),
      selectBestFormat formats mt none = some r →
      (∃ g ∈ filterFormats formats mt, 0 < heightOf g) →
      0 < heightOf r) := by
  constructor
  · exact ⟨rfl, by decide, by decide, by decide, by decide⟩
  · intro formats mt r hsel hex
    obtain ⟨g, hg, hgpos⟩ := hex
    cases hfil : filterFormats formats mt with
    | nil =>
      unfold selectBestFormat at hsel
      rw [hfil] at hsel
      exact absurd hsel (by simp)
    | cons b rest =>
      rw [selectBestFormat_cons formats mt none b rest hfil] at hsel
      simp only [qualityFind, Option.some.injEq] at hsel
      rw [hfil] at hg
      exact lt_of_lt_of_le hgpos (hsel ▸ reduceBest_max rest b g hg)

/-- Claim C8: `getVideoMetadata` raises an error exactly when the external
call fails, the response is absent, the response is marked unsuccessful, or
the response carries no data; otherwise it returns the response's data value
unchanged as a pass-through. -/
theorem C8_getVideoMetadata_error_iff :
    ∀ (α : Type) (call : Except String (Option (ApiResponse α))),
      ((∃ e, getVideoMetadata α call = Except.error e) ↔
        ((∃ e, call = Except.error e) ∨ call = Except.ok none ∨
         (∃ r, call = Except.ok (some r) ∧
           (r.success = false ∨ r.data = none)))) ∧
      (∀ (r : ApiResponse α) (d : α),
        call = Except.ok (some r) → r.success = true → r.data = some d →
        getVideoMetadata α call = Except.ok d) := by
  intro α call
  constructor
  · cases call with
    | error e => simp [getVideoMetadata]
    | ok response =>
      cases response with
      | none => simp [getVideoMetadata]
      | some r =>
        cases hs : r.success with
        | false => simp [getVideoMetadata, hs]
        | true =>
          cases hd : r.data with
          | none => simp [getVideoMetadata, hs, hd]
          | some d => simp [getVideoMetadata, hs, hd]
  · intro r d hcall hs hd
    subst hcall
    simp [getVideoMetadata, hs, hd]

/-- Claim C9: for every input, `sanitizeFilename` returns a non-empty result
of at most 80 characters in which none of the characters
`< > : " / \ | ? *` appears (they are replaced by underscores before
truncation to 80 characters and trimming, and an empty outcome falls back to
a fixed non-empty default name); likewise for the older revision. -/
theorem C9_sanitizeFilename_nonempty_bounded :
    ∀ cs : List Char,
      (sanitizeFilename cs ≠ [] ∧ (sanitizeFilename cs).length ≤ 80 ∧
        ∀ c ∈ sanitizeFilename cs, c ∉ invalidChars) ∧
      (sanitizeFilenameLegacy cs ≠ [] ∧ (sanitizeFilenameLegacy cs).length ≤ 80 ∧
        ∀ c ∈ sanitizeFilenameLegacy cs, c ∉ invalidChars) := by
  intro cs
  constructor
  · simp only [sanitizeFilename]
    by_cases hr : trimChars ((collapseWs (replaceInvalid cs)).take 80) = []
    · rw [if_pos hr]
      exact ⟨by decide, by decide, by decide⟩
    · rw [if_neg hr]
      refine ⟨hr, ?_, ?_⟩
      · calc (trimChars ((collapseWs (replaceInvalid cs)).take 80)).length
            ≤ ((collapseWs (replaceInvalid cs)).take 80).length :=
              length_trimChars_le _
          _ ≤ 80 := by rw [List.length_take]; exact min_le_left _ _
      · intro c hc
        have h1 := mem_trimChars _ _ hc
        have h2 := List.take_subset _ _ h1
        rcases mem_collapseWs _ _ h2 with h3 | h3
        · subst h3; decide
        · exact replaceInvalid_no_invalid _ _ h3
  · simp only [sanitizeFilenameLegacy]
    by_cases hr : trimChars ((replaceInvalid cs).take 80) = []
    · rw [if_pos hr]
      exact ⟨by decide, by decide, by decide⟩
    · rw [if_neg hr]
      refine ⟨hr, ?_, ?_⟩
      · calc (trimChars ((replaceInvalid cs).take 80)).length
            ≤ ((replaceInvalid cs).take 80).length := length_trimChars_le _
          _ ≤ 80 := by rw [List.length_take]; exact min_le_left _ _
      · intro c hc
        have h1 := mem_trimChars _ _ hc
        have h2 := List.take_subset _ _ h1
        exact replaceInvalid_no_invalid _ _ h2

/-- Claim C10: whenever `selectBestFormat` returns a non-null result, that
result is an element of the filtered subset and hence of the input format
list; the function never fabricates a descriptor. -/
theorem C10_result_from_input_list :
    ∀ (formats : List Format) (mt : MediaType) (quality : Option String)
      (f : Format),
      selectBestFormat formats mt quality = some f →
      f ∈ filterFormats formats mt ∧ f ∈ formats := by
  intro formats mt quality f hsel
  cases hfil : filterFormats formats mt with
  | nil =>
    unfold selectBestFormat at hsel
    rw [hfil] at hsel
    exact absurd hsel (by simp)
  | cons b rest =>
    rw [selectBestFormat_cons formats mt quality b rest hfil] at hsel
    have hf : f ∈ b :: rest := by
      cases hqf : qualityFind (b :: rest) quality with
      | some g =>
        simp only [hqf, Option.some.injEq] at hsel
        exact hsel ▸ qualityFind_mem _ _ _ hqf
      | none =>
        simp only [hqf, Option.some.injEq] at hsel
        exact hsel ▸ reduceBest_mem rest b
    exact ⟨hf, mem_filterFormats formats mt f (by rw [hfil]; exact hf)⟩

/-! ### Witnesses -/

theorem C1_witness :
    selectBestFormat [fmt1080, fmt720] MediaType.video (some "720p") = some fmt720 := by
  have hfirst : ∀ (j : Nat) (hj : j < (fmt1080 :: [fmt720]).length), j < 1 →
      ¬ parseIntOr0 ((fmt1080 :: [fmt720]).get ⟨j, hj⟩).height ≤
        (targetHeightOf "720p" : Int) := by
    intro j hj hj1
    interval_cases j
    exact (by decide : ¬ parseIntOr0 fmt1080.height ≤ (targetHeightOf "720p" : Int))
  exact C1_quality_stage_fixed_map_first_match.2 [fmt1080, fmt720]
    MediaType.video "720p" fmt1080 [fmt720] (by decide) (by decide) 1 (by decide)
    (by decide) hfirst

theorem C2_witness :
    ∃ r l₁ l₂,
      selectBestFormat [fmt1080, fmt720] MediaType.video none = some r ∧
      fmt1080 :: [fmt720] = l₁ ++ r :: l₂ ∧
      (∀ g ∈ l₁, heightOf g < heightOf r) ∧
      (∀ g ∈ fmt1080 :: [fmt720], heightOf g ≤ heightOf r) :=
  C2_default_stage_leftmost_max_height [fmt1080, fmt720] MediaType.video
    fmt1080 [fmt720] (by decide)

theorem C3_witness :
    (∃ f, selectBestFormat [fmt1080, fmt720] MediaType.video (some "240p") = some f) ∧
    (qualityFind (fmt1080 :: [fmt720]) (some "240p") = none →
      selectBestFormat [fmt1080, fmt720] MediaType.video (some "240p") =
        selectBestFormat [fmt1080, fmt720] MediaType.video none) :=
  C3_nonempty_filtered_always_some [fmt1080, fmt720] MediaType.video
    (some "240p") fmt1080 [fmt720] (by decide)

theorem C4_witness :
    selectBestFormat [fmtWebm] MediaType.video (some "1080p") = none :=
  C4_empty_filtered_no_match [fmtWebm] MediaType.video (some "1080p") (by decide)

theorem C5_witness :
    (fmtAudio.hasAudio = true ∧ fmtAudio.hasVideo = false) ∧
    (fmtAudio.hasAudio = true ∧ fmtAudio.hasVideo = false ∧
      fmtAudio.container = "mp4") :=
  ⟨(C5_audio_filter_props [fmtAudio] fmtAudio).1 (by decide),
   (C5_audio_filter_props [fmtAudio] fmtAudio).2 (by decide)⟩

theorem C6_witness :
    (fmt1080.hasVideo = true ∧ fmt1080.hasAudio = true ∧
      fmt1080.container = "mp4") ∧
    (fmt1080.hasVideo = true ∧ fmt1080.hasAudio = true ∧
      fmt1080.container = "mp4") :=
  ⟨(C6_video_filter_props [fmt1080] fmt1080).1 (by decide),
   (C6_video_filter_props [fmt1080] fmt1080).2 (by decide)⟩

theorem C7_witness : 0 < heightOf fmt720 :=
  C7_height_parsing_zero_never_wins.2 [fmtZero, fmt720] MediaType.video fmt720
    (by decide) ⟨fmt720, by decide, by decide⟩

theorem C8_witness :
    getVideoMetadata Nat (Except.ok (some { success := true, data := some 7 })) =
      Except.ok 7 :=
  (C8_getVideoMetadata_error_iff Nat
    (Except.ok (some { success := true, data := some 7 }))).2
    { success := true, data := some 7 } 7 rfl rfl rfl

theorem C9_witness :
    sanitizeFilename ['a', '<', 'b'] ≠ [] ∧
    (sanitizeFilename ['a', '<', 'b']).length ≤ 80 ∧
    '_' ∉ invalidChars :=
  ⟨(C9_sanitizeFilename_nonempty_bounded ['a', '<', 'b']).1.1,
   (C9_sanitizeFilename_nonempty_bounded ['a', '<', 'b']).1.2.1,
   (C9_sanitizeFilename_nonempty_bounded ['a', '<', 'b']).1.2.2 '_' (by decide)⟩

theorem C10_witness :
    fmt1080 ∈ filterFormats [fmt1080, fmt720] MediaType.video ∧
    fmt1080 ∈ [fmt1080, fmt720] :=
  C10_result_from_input_list [fmt1080, fmt720] MediaType.video none fmt1080
    (by decide)

end MediaDL
